import Mathlib

set_option maxRecDepth 2048

/- Formal model of the ingestion-and-cache subsystem of the Capital Flows
   Dashboard repository: the filename sanitization shared by src/ingestor.py
   and src/data_fetcher.py, the incremental merge used by ingest_fred, the
   rate-limit classifier and ledger, the manifest updater, and the read-path
   window filtering of data_fetcher.get_index_data. -/

/- Filename sanitization, from src/ingestor.py (_sanitize_filename) and
   src/data_fetcher.py (_sanitize_filename):
     name.replace("^", "").replace("=", "_").replace("/", "_").replace(" ", "_")
   Every replaced pattern is a single character, so each replace step acts
   characterwise: the caret is deleted, the other three map to an underscore,
   applied in the order used by the source. -/

def removeChar (old : Char) (s : List Char) : List Char :=
  s.filter (fun c => !(decide (c = old)))

def replaceChar (old rep : Char) (s : List Char) : List Char :=
  s.map (fun c => if c = old then rep else c)

def sanitize_filename (s : List Char) : List Char :=
  replaceChar ' ' '_' (replaceChar '/' '_' (replaceChar '=' '_' (removeChar '^' s)))

def sanitizeStr (s : String) : String :=
  String.mk (sanitize_filename s.toList)

/- The concrete cache names written per category, from src/config.py
   (FRED.values, WB_INDICATORS.values, COUNTRIES index and currency_pair
   entries) and the literal names in src/ingestor.py (DXY, commodity and
   volatility tickers, imf and policy table names). -/

def fredSeries : List String :=
  ["DFF", "DGS10", "DGS2", "T10Y2Y", "DFII10", "T10YIE",
   "WALCL", "RRPONTSYD", "WTREGEN", "WM2NS",
   "BAMLH0A0HYM2", "BAMLC0A0CM", "NFCI",
   "ICSA", "CCSA", "UMCSENT", "CPIAUCSL", "UNRATE", "PSAVERT", "INDPRO",
   "USALOLITONOSTSAM"]

def wbIndicatorCodes : List String :=
  ["BN.CAB.XOKA.GD.ZS", "NE.RSB.GNFS.CD", "BX.KLT.DINV.CD.WD",
   "BM.KLT.DINV.CD.WD", "FI.RES.TOTL.CD", "DT.DOD.DECT.CD",
   "GC.DOD.TOTL.GD.ZS", "GC.BAL.CASH.GD.ZS", "NY.GDP.MKTP.CD",
   "NY.GDP.MKTP.KD.ZG", "FP.CPI.TOTL.ZG", "SL.UEM.TOTL.ZS"]

def marketNames : List String :=
  ["^GSPC", "^STOXX50E", "^FTSE", "^N225", "000001.SS", "^GSPTSE", "^AXJO",
   "^SSMI", "^KS11", "^BSESN", "^BVSP", "^MXX", "^GDAXI",
   "EURUSD=X", "GBPUSD=X", "USDJPY=X", "USDCNY=X", "USDCAD=X", "AUDUSD=X",
   "USDCHF=X", "USDKRW=X", "USDINR=X", "USDBRL=X", "USDMXN=X",
   "DXY", "GC=F", "HG=F", "CL=F", "BZ=F", "^VIX", "^MOVE"]

def imfNames : List String := ["bop", "gold_reserves"]

def policyNames : List String := ["events", "cb_calendar", "tariff_tracker"]

/- Characters that sanitization is required to eliminate. -/
def charsOk (c : Char) : Prop :=
  ¬ c = '^' ∧ ¬ c = '=' ∧ ¬ c = '/' ∧ ¬ c = ' '

/- ------------------------------------------------------------------ -/
/- The incremental merge of src/ingestor.py (ingest_fred):             -/
/-   combined = pd.concat([existing, df])                              -/
/-   df = combined.loc[~combined.index.duplicated(keep="last")]        -/
/- A table is a list of (index value, row) pairs in positional order;  -/
/- duplicated(keep="last") marks every row whose index value occurs    -/
/- again later, so the kept rows are those with no later occurrence.   -/
/- ------------------------------------------------------------------ -/

def keys {α β : Type} (l : List (α × β)) : List α := l.map Prod.fst

def hasKey {α β : Type} [DecidableEq α] (k : α) (l : List (α × β)) : Bool :=
  l.any (fun y => decide (y.1 = k))

def dedupLast {α β : Type} [DecidableEq α] : List (α × β) → List (α × β)
  | [] => []
  | x :: xs => if hasKey x.1 xs then dedupLast xs else x :: dedupLast xs

def merge {α β : Type} [DecidableEq α] (existing incoming : List (α × β)) :
    List (α × β) :=
  dedupLast (existing ++ incoming)

/- A cached table: dates are modeled as integer day numbers since
   1970-01-01, and cell contents as a single integer column (FRED series
   have one value column; the numeric payload is irrelevant to every
   property proved here). -/

abbrev Table := List (Int × Int)

/- df.index.max() and df.index.min() of a nonempty table. -/

def maxKey : Table → Int
  | [] => 0
  | [x] => x.1
  | x :: y :: xs => max x.1 (maxKey (y :: xs))

def minKey : Table → Int
  | [] => 0
  | [x] => x.1
  | x :: y :: xs => min x.1 (minKey (y :: xs))

/- ------------------------------------------------------------------ -/
/- Rate-limit classification, src/ingestor.py (_is_rate_limit_error): -/
/-   err_str = str(error).lower()                                      -/
/-   signals = ["429", "rate limit", "too many requests", "throttl",   -/
/-              "quota exceeded", "limit exceeded"]                    -/
/-   return any(s in err_str for s in signals)                         -/
/- Python substring membership is modeled by containsSeq.              -/
/- ------------------------------------------------------------------ -/

def lowerL (s : List Char) : List Char := s.map Char.toLower

def startsWithL : List Char → List Char → Bool
  | [], _ => true
  | _ :: _, [] => false
  | p :: ps, c :: cs => decide (p = c) && startsWithL ps cs

def containsSeq (pat : List Char) : List Char → Bool
  | [] => startsWithL pat []
  | c :: cs => startsWithL pat (c :: cs) || containsSeq pat cs

def rateLimitSignals : List String :=
  ["429", "rate limit", "too many requests", "throttl",
   "quota exceeded", "limit exceeded"]

def is_rate_limit_error (msg : String) : Bool :=
  rateLimitSignals.any (fun s => containsSeq s.toList (lowerL msg.toList))

/- The throttling signals named by the specification (section 4.1):
   HTTP 429, rate limit, quota exceeded, too many requests, throttle. -/
def specSignals : List String :=
  ["429", "rate limit", "quota exceeded", "too many requests", "throttle"]

/- ------------------------------------------------------------------ -/
/- Ingestor state: Parquet cache, manifest and rate-limit ledger.      -/
/- The cache is keyed by (category, sanitized filename), mirroring     -/
/- data/<category>/<sanitized name>.parquet; the manifest is keyed by  -/
/- the (category, name) pair behind the "category/name" string key,    -/
/- and the ledger by the (source, item) pair behind "source/item".     -/
/- Timestamps (datetime.now()) enter as an explicit now parameter.     -/
/- ------------------------------------------------------------------ -/

structure MEntry where
  lastUpdated : Int
  status : Option String
  rows : Option Nat
  dateRange : Option (Int × Int)
  error : Option String
deriving DecidableEq

structure RLRecord where
  source : String
  item : String
  error : String
  lastDateIngested : Option Int
  hitAt : Int
  status : String
deriving DecidableEq

structure IngestState where
  cache : String × String → Option Table
  manifest : String × String → Option MEntry
  ledger : String × String → Option RLRecord

/- Python truthiness of the optional error string in _update_manifest
   (an empty string is falsy). -/
def pyTruthy : Option String → Bool
  | none => false
  | some s => !(decide (s = ""))

/- _update_manifest: starts from the existing entry (or an empty one),
   always stamps last_updated; an error sets status/error and keeps any
   stale rows/date_range fields; a dataframe sets status=ok, rows,
   removes error, and sets date_range when the table is nonempty. -/
def updateManifest (m : String × String → Option MEntry) (cat name : String)
    (df : Option Table) (err : Option String) (now : Int) :
    String × String → Option MEntry :=
  let prev := (m (cat, name)).getD ⟨0, none, none, none, none⟩
  let entry :=
    if pyTruthy err then
      { prev with lastUpdated := now, status := some "error", error := err }
    else
      match df with
      | some d =>
        let range := if 0 < d.length then some (minKey d, maxKey d)
          else prev.dateRange
        { prev with
          lastUpdated := now
          status := some "ok"
          rows := some d.length
          error := none
          dateRange := range }
      | none => { prev with lastUpdated := now }
  fun k => if k = (cat, name) then some entry else m k

/- _record_rate_limit: writes the full record for key source/item; note
   that the last_date parameter defaults to None in the source and its
   callers in ingest_fred and the other adapters never pass it. -/
def recordRateLimit (led : String × String → Option RLRecord)
    (source item errMsg : String) (lastDate : Option Int) (now : Int) :
    String × String → Option RLRecord :=
  fun k => if k = (source, item) then
    some ⟨source, item, errMsg, lastDate, now, "rate_limited"⟩
  else led k

/- _save_parquet / _load_existing_parquet: the file name is the sanitized
   name under the category directory. -/
def saveParquet (c : String × String → Option Table) (cat name : String)
    (df : Table) : String × String → Option Table :=
  fun k => if k = (cat, sanitizeStr name) then some df else c k

def loadExistingParquet (c : String × String → Option Table)
    (cat name : String) : Option Table :=
  c (cat, sanitizeStr name)

/- What one fred_client.get_series call produces: either a series (possibly
   empty, matching the "data is None or data.empty" test) or a raised
   exception carrying a message. -/
inductive FetchResult where
  | data (t : Table)
  | fetchErr (msg : String)
deriving DecidableEq

inductive StepOutcome where
  | ok
  | fail
  | rateLimited
deriving DecidableEq

/- 2020-01-01 (the hard-coded observation_start) as a day number. -/
def fredStart : Int := 18262

/- The observation_start computed by ingest_fred: on an incremental run
   with a nonempty existing Parquet table it is the maximum
   index, otherwise the fixed historical start. -/
def startDate (incremental : Bool) (cache : String × String → Option Table)
    (sid : String) : Int :=
  if incremental then
    match loadExistingParquet cache "fred" sid with
    | some e => if 0 < e.length then maxKey e else fredStart
    | none => fredStart
  else fredStart

/- The body of the per-series loop of ingest_fred for one series id: fetch
   from the given start; on an empty result record a manifest error and
   continue; on data, merge with the existing table when incremental, save
   the Parquet file and record an ok manifest entry; on an exception,
   either record a rate-limit ledger entry (with no cursor) and stop the
   source, or record a manifest error and continue. -/
def processSeries (client : String → Int → FetchResult) (incremental : Bool)
    (now : Int) (sid : String) (st : IngestState) :
    IngestState × StepOutcome :=
  let start := startDate incremental st.cache sid
  match client sid start with
  | .data t =>
    if t.length = 0 then
      let m1 := updateManifest st.manifest "fred" sid none
        (some "Empty response from API") now
      ({ st with manifest := m1 }, .fail)
    else
      let df := if incremental then
          match loadExistingParquet st.cache "fred" sid with
          | some existing => merge existing t
          | none => t
        else t
      let c1 := saveParquet st.cache "fred" sid df
      let m1 := updateManifest st.manifest "fred" sid (some df) none now
      ({ st with cache := c1, manifest := m1 }, .ok)
  | .fetchErr msg =>
    if is_rate_limit_error msg then
      let l1 := recordRateLimit st.ledger "fred" sid msg none now
      ({ st with ledger := l1 }, .rateLimited)
    else
      let m1 := updateManifest st.manifest "fred" sid none (some msg) now
      ({ st with manifest := m1 }, .fail)

/- The loop over FRED.items(): a rate-limit hit saves the ledger and
   returns from the source immediately; other outcomes continue. -/
def ingestFredLoop (client : String → Int → FetchResult)
    (incremental : Bool) (now : Int) :
    List String → IngestState → IngestState
  | [], st => st
  | sid :: rest, st =>
    let step := processSeries client incremental now sid st
    match step.2 with
    | .rateLimited => step.1
    | _ => ingestFredLoop client incremental now rest step.1

/- ingest_fred: with no FRED_API_KEY (or with fredapi missing) the source
   is skipped outright and the function returns without touching any
   state; with a client it runs the per-series loop. -/
def ingestFred (clientOpt : Option (String → Int → FetchResult))
    (incremental : Bool) (now : Int) (st : IngestState) : IngestState :=
  match clientOpt with
  | none => st
  | some c => ingestFredLoop c incremental now fredSeries st

/- ------------------------------------------------------------------ -/
/- Read path, src/data_fetcher.py: _filter_by_period and               -/
/- get_index_data.  The mock fallback index is pd.bdate_range over the -/
/- 1825 days ending 2026-02-06 (day 20490; day 0, 1970-01-01, was a    -/
/- Thursday); its OHLCV cell values are seeded pseudo-random floats    -/
/- that play no role in window filtering and are modeled as zeros.     -/
/- ------------------------------------------------------------------ -/

def pyLower (s : String) : String := String.mk (lowerL s.toList)

def periodDays (p : String) : Option Nat :=
  let q := pyLower p
  if q = "1mo" then some 30
  else if q = "3mo" then some 90
  else if q = "6mo" then some 180
  else if q = "1y" then some 365
  else if q = "3y" then some 1095
  else if q = "5y" then some 1825
  else if q = "10y" then some 3650
  else none

def longPeriods : List String :=
  ["1y", "3y", "5y", "10y", "max", "1Y", "3Y", "5Y", "10Y", "MAX"]

def filter_by_period (t : Table) (p : String) : Table :=
  match periodDays p with
  | some d =>
    if 0 < t.length then
      t.filter (fun x => decide (maxKey t - (d : Int) ≤ x.1))
    else t
  | none => t

def mockEnd : Int := 20490

def isBusinessDay (d : Int) : Bool := decide ((d + 3) % 7 < 5)

def mockDates : List Int :=
  ((List.range 1826).map (fun i : Nat => mockEnd - 1825 + (i : Int))).filter
    isBusinessDay

def mockTable : Table := mockDates.map (fun d => (d, 0))

/- get_index_data: for a long period with a cached Parquet table, return
   the table filtered to the window; otherwise (short period, or cache
   miss) return the synthetic table, unfiltered. -/
def get_index_data (cache : String × String → Option Table)
    (ticker period : String) : Table :=
  if period ∈ longPeriods then
    match cache ("market", sanitizeStr ticker) with
    | some pq => filter_by_period pq period
    | none => mockTable
  else mockTable

/- ------------------------------------------------------------------ -/
/- Concrete states and clients used in witnesses and counterexamples.  -/
/- ------------------------------------------------------------------ -/

def emptyState : IngestState :=
  ⟨fun _ => none, fun _ => none, fun _ => none⟩

def exClientRL : String → Int → FetchResult :=
  fun _ _ => .fetchErr "Error 429"

def exCacheDFF : String × String → Option Table :=
  fun k => if k = ("fred", "DFF") then some [(18262, 5)] else none

def exStateDFF : IngestState := ⟨exCacheDFF, fun _ => none, fun _ => none⟩

def exClientOk : String → Int → FetchResult :=
  fun _ _ => .data [(18300, 7)]

def exLedgerDFF : String × String → Option RLRecord :=
  fun k => if k = ("fred", "DFF") then
    some ⟨"fred", "DFF", "earlier 429", none, -5, "rate_limited"⟩
  else none

def exStateLedger : IngestState := ⟨fun _ => none, fun _ => none, exLedgerDFF⟩

def exClientEmpty : String → Int → FetchResult := fun _ _ => .data []

def exClientHard : String → Int → FetchResult :=
  fun _ _ => .fetchErr "connection reset by peer"

def exCache7 : String × String → Option Table :=
  fun k => if k = ("market", "GSPC") then some [(100, 1), (500, 2)] else none

/- Concrete tables used to instantiate the merge theorems. -/

def exE3 : List (Int × Int) := [(1, 10), (2, 20)]

def exD3 : List (Int × Int) := [(2, 25), (3, 30)]

/- ------------------------------------------------------------------ -/
/- Lemmas about sanitization.                                          -/
/- ------------------------------------------------------------------ -/

theorem mem_removeChar {old : Char} {s : List Char} {c : Char}
    (h : c ∈ removeChar old s) : c ∈ s ∧ ¬ c = old := by
  unfold removeChar at h
  have h2 := List.of_mem_filter h
  refine ⟨List.mem_of_mem_filter h, ?_⟩
  simpa using h2

theorem mem_replaceChar {old rep : Char} {s : List Char} {c : Char}
    (h : c ∈ replaceChar old rep s) : c = rep ∨ (c ∈ s ∧ ¬ c = old) := by
  unfold replaceChar at h
  rcases List.mem_map.mp h with ⟨b, hb, hbc⟩
  by_cases hba : b = old
  · left; simp [hba] at hbc; exact hbc.symm
  · right
    simp [hba] at hbc
    exact ⟨hbc ▸ hb, hbc ▸ hba⟩

theorem removeChar_eq_self {old : Char} {s : List Char}
    (h : ∀ c ∈ s, ¬ c = old) : removeChar old s = s := by
  induction s with
  | nil => rfl
  | cons x xs ih =>
    have hx : ¬ x = old := h x (List.mem_cons_self x xs)
    have hxs : ∀ c ∈ xs, ¬ c = old := fun c hc => h c (List.mem_cons_of_mem x hc)
    have hstep : removeChar old (x :: xs) = x :: removeChar old xs := by
      simp [removeChar, List.filter_cons, hx]
    rw [hstep, ih hxs]

theorem replaceChar_eq_self {old rep : Char} {s : List Char}
    (h : ∀ c ∈ s, ¬ c = old) : replaceChar old rep s = s := by
  induction s with
  | nil => rfl
  | cons x xs ih =>
    have hx : ¬ x = old := h x (List.mem_cons_self x xs)
    have hxs : ∀ c ∈ xs, ¬ c = old := fun c hc => h c (List.mem_cons_of_mem x hc)
    have hstep : replaceChar old rep (x :: xs) = x :: replaceChar old rep xs := by
      simp [replaceChar, List.map_cons, hx]
    rw [hstep, ih hxs]

theorem sanitize_chars {s : List Char} {c : Char}
    (h : c ∈ sanitize_filename s) : charsOk c := by
  unfold sanitize_filename at h
  rcases mem_replaceChar h with h1 | ⟨h1, hsp⟩
  · subst h1; refine ⟨by decide, by decide, by decide, by decide⟩
  rcases mem_replaceChar h1 with h2 | ⟨h2, hsl⟩
  · subst h2; refine ⟨by decide, by decide, by decide, by decide⟩
  rcases mem_replaceChar h2 with h3 | ⟨h3, heq⟩
  · subst h3; refine ⟨by decide, by decide, by decide, by decide⟩
  have hc := mem_removeChar h3
  exact ⟨hc.2, heq, hsl, hsp⟩

theorem sanitize_idem (s : List Char) :
    sanitize_filename (sanitize_filename s) = sanitize_filename s := by
  have hall : ∀ c ∈ sanitize_filename s, charsOk c := fun c hc => sanitize_chars hc
  conv_lhs => rw [sanitize_filename]
  rw [removeChar_eq_self (fun c hc => (hall c hc).1)]
  rw [replaceChar_eq_self (fun c hc => (hall c hc).2.1)]
  rw [replaceChar_eq_self (fun c hc => (hall c hc).2.2.1)]
  rw [replaceChar_eq_self (fun c hc => (hall c hc).2.2.2)]

/- ------------------------------------------------------------------ -/
/- Claim theorems for sanitization.                                    -/
/- ------------------------------------------------------------------ -/

/-- Claim C10: the filename sanitization function is idempotent: applying
_sanitize_filename to its own output returns that output unchanged, because
the output never contains a caret, equals sign, slash or space. -/
theorem C10_sanitize_idempotent (s : String) :
    sanitizeStr (sanitizeStr s) = sanitizeStr s := by
  unfold sanitizeStr
  have h : (String.mk (sanitize_filename s.toList)).toList = sanitize_filename s.toList := rfl
  rw [h, sanitize_idem]

/-- Claim C4, counterexample: sanitization is not injective on arbitrary name
strings: the two distinct names caret-GSPC and GSPC sanitize to the same
filename, so the claim as stated (no two distinct names ever collide) is
false. -/
theorem C4_counterexample :
    sanitizeStr "^GSPC" = sanitizeStr "GSPC" ∧
    decide (("^GSPC" : String) = "GSPC") = false := by
  constructor
  · rfl
  · rfl

/-- Claim C4, amended: sanitization is injective on the names actually
configured in this repository: within each category (fred series ids, World
Bank indicator codes, market tickers, imf table names, policy table names) all
pairs of distinct configured names sanitize to distinct filenames. -/
theorem C4_sanitize_injective_on_config :
    fredSeries.Pairwise (fun a b => sanitizeStr a ≠ sanitizeStr b) ∧
    wbIndicatorCodes.Pairwise (fun a b => sanitizeStr a ≠ sanitizeStr b) ∧
    marketNames.Pairwise (fun a b => sanitizeStr a ≠ sanitizeStr b) ∧
    imfNames.Pairwise (fun a b => sanitizeStr a ≠ sanitizeStr b) ∧
    policyNames.Pairwise (fun a b => sanitizeStr a ≠ sanitizeStr b) := by
  refine ⟨?_, ?_, ?_, ?_, ?_⟩ <;> decide


/- ------------------------------------------------------------------ -/
/- Lemmas about the merge.                                             -/
/- ------------------------------------------------------------------ -/

theorem hasKey_cons {α β : Type} [DecidableEq α] (k : α) (x : α × β)
    (xs : List (α × β)) :
    hasKey k (x :: xs) = (decide (x.1 = k) || hasKey k xs) := by
  simp [hasKey]

theorem hasKey_eq_true_iff {α β : Type} [DecidableEq α] {k : α}
    {l : List (α × β)} : hasKey k l = true ↔ k ∈ keys l := by
  simp [hasKey, keys, List.any_eq_true, List.mem_map]

theorem hasKey_append {α β : Type} [DecidableEq α] (k : α)
    (A B : List (α × β)) :
    hasKey k (A ++ B) = (hasKey k A || hasKey k B) := by
  simp [hasKey, List.any_append]

theorem mem_of_mem_dedupLast {α β : Type} [DecidableEq α] {p : α × β}
    {l : List (α × β)} (h : p ∈ dedupLast l) : p ∈ l := by
  induction l with
  | nil => simp [dedupLast] at h
  | cons x xs ih =>
    by_cases hk : hasKey x.1 xs = true
    · simp only [dedupLast] at h
      rw [if_pos hk] at h
      exact List.mem_cons_of_mem _ (ih h)
    · simp only [dedupLast] at h
      rw [if_neg hk] at h
      rcases List.mem_cons.mp h with h1 | h1
      · exact h1 ▸ List.mem_cons_self x xs
      · exact List.mem_cons_of_mem _ (ih h1)

theorem hasKey_dedupLast {α β : Type} [DecidableEq α] (k : α)
    (l : List (α × β)) : hasKey k (dedupLast l) = hasKey k l := by
  induction l with
  | nil => rfl
  | cons x xs ih =>
    by_cases hk : hasKey x.1 xs = true
    · simp only [dedupLast]
      rw [if_pos hk, ih, hasKey_cons]
      by_cases he : x.1 = k
      · subst he
        simp [hk]
      · simp [he]
    · simp only [dedupLast]
      rw [if_neg hk, hasKey_cons, hasKey_cons, ih]

theorem keys_nodup_dedupLast {α β : Type} [DecidableEq α]
    (l : List (α × β)) : (keys (dedupLast l)).Nodup := by
  induction l with
  | nil => simp [dedupLast, keys]
  | cons x xs ih =>
    by_cases hk : hasKey x.1 xs = true
    · simp only [dedupLast]
      rw [if_pos hk]
      exact ih
    · simp only [dedupLast]
      rw [if_neg hk]
      simp only [keys, List.map_cons]
      refine List.nodup_cons.mpr ⟨?_, ih⟩
      intro hmem
      have hhk : hasKey x.1 (dedupLast xs) = true := by
        apply hasKey_eq_true_iff.mpr
        simpa [keys] using hmem
      rw [hasKey_dedupLast] at hhk
      exact hk hhk

theorem dedupLast_eq_self {α β : Type} [DecidableEq α] {l : List (α × β)}
    (h : (keys l).Nodup) : dedupLast l = l := by
  induction l with
  | nil => rfl
  | cons x xs ih =>
    simp only [keys, List.map_cons, List.nodup_cons] at h
    have hk : ¬ hasKey x.1 xs = true := by
      intro hh
      exact h.1 (by simpa [keys] using hasKey_eq_true_iff.mp hh)
    simp only [dedupLast]
    rw [if_neg hk, ih (by simpa [keys] using h.2)]

theorem filter_eq_nil_of_false {α : Type} {p : α → Bool} {l : List α}
    (h : ∀ a ∈ l, p a = false) : l.filter p = [] := by
  induction l with
  | nil => rfl
  | cons x xs ih =>
    have hx := h x (List.mem_cons_self x xs)
    rw [List.filter_cons, if_neg (by simp [hx])]
    exact ih (fun a ha => h a (List.mem_cons_of_mem x ha))

theorem dedupLast_append {α β : Type} [DecidableEq α] (A B : List (α × β)) :
    dedupLast (A ++ B) =
      (dedupLast A).filter (fun p => !(hasKey p.1 B)) ++ dedupLast B := by
  induction A with
  | nil => simp [dedupLast]
  | cons a A ih =>
    by_cases h1 : hasKey a.1 A = true
    · have h12 : hasKey a.1 (A ++ B) = true := by
        rw [hasKey_append, h1, Bool.true_or]
      simp only [List.cons_append, dedupLast, List.append_eq]
      rw [if_pos h12, if_pos h1]
      exact ih
    · by_cases h2 : hasKey a.1 B = true
      · have h12 : hasKey a.1 (A ++ B) = true := by
          rw [hasKey_append, h2, Bool.or_true]
        simp only [List.cons_append, dedupLast, List.append_eq]
        rw [if_pos h12, if_neg h1, ih, List.filter_cons,
            if_neg (by simp [h2])]
      · have h12 : ¬ hasKey a.1 (A ++ B) = true := by
          rw [hasKey_append]
          simp only [Bool.or_eq_true]
          rintro (hh | hh)
          · exact h1 hh
          · exact h2 hh
        simp only [List.cons_append, dedupLast, List.append_eq]
        rw [if_neg h12, if_neg h1, ih, List.filter_cons,
            if_pos (by simp [Bool.not_eq_true] at h2 ⊢; exact h2)]
        rfl

theorem filter_dedupLast_self {α β : Type} [DecidableEq α]
    (B : List (α × β)) :
    (dedupLast B).filter (fun p => !(hasKey p.1 B)) = [] := by
  apply filter_eq_nil_of_false
  intro p hp
  have hmem : p ∈ B := mem_of_mem_dedupLast hp
  have hk : hasKey p.1 B = true := by
    apply hasKey_eq_true_iff.mpr
    simpa [keys] using List.mem_map_of_mem Prod.fst hmem
  simp [hk]

theorem nodup_keys_of_sorted {α : Type} [LinearOrder α] {l : List α}
    (h : l.Pairwise (· < ·)) : l.Nodup :=
  h.imp (fun hlt => ne_of_lt hlt)

/- ------------------------------------------------------------------ -/
/- Claim theorems for the merge.                                       -/
/- ------------------------------------------------------------------ -/

/-- Claim C2: the incremental merge is idempotent: for every existing table E
and incoming delta D, merge (merge E D) D = merge E D, where merge is the
concat-then-drop-duplicated-index (keep last) operation of ingest_fred. -/
theorem C2_merge_idempotent {α β : Type} [DecidableEq α]
    (E D : List (α × β)) : merge (merge E D) D = merge E D := by
  show dedupLast (dedupLast (E ++ D) ++ D) = dedupLast (E ++ D)
  rw [dedupLast_append (dedupLast (E ++ D)) D,
      dedupLast_eq_self (keys_nodup_dedupLast (E ++ D)),
      dedupLast_append E D, List.filter_append, filter_dedupLast_self,
      List.append_nil, List.filter_filter]
  simp [Bool.and_self]

/-- Claim C3, counterexample: the merged index is not strictly sorted for
every pair of input tables: merging existing index 3 with incoming index 1
yields the index sequence 3, 1, which is not sorted (the merge concatenates
and deduplicates but never sorts). -/
theorem C3_counterexample :
    keys (merge [((3 : Int), (0 : Int))] [((1 : Int), (0 : Int))]) = [3, 1] ∧
    decide ((keys (merge [((3 : Int), (0 : Int))]
      [((1 : Int), (0 : Int))])).Pairwise (· < ·)) = false := by
  constructor
  · rfl
  · rfl

/-- Claim C3, amended: for existing and incoming tables whose indices are
strictly sorted, the merged index is the union of the two indices and has no
duplicates, and on any shared index value the merged row is the incoming row;
the merged index is moreover strictly sorted provided every existing index is
at most every incoming index, which is the incremental-fetch situation (the
incoming delta starts at the cached maximum). Without that extra hypothesis
the merged index need not be sorted, since the merge never sorts. -/
theorem C3_merge_shape {α β : Type} [DecidableEq α] [LinearOrder α]
    (E D : List (α × β))
    (hE : (keys E).Pairwise (· < ·)) (hD : (keys D).Pairwise (· < ·)) :
    (∀ k, k ∈ keys (merge E D) ↔ (k ∈ keys E ∨ k ∈ keys D)) ∧
    (keys (merge E D)).Nodup ∧
    (∀ k v, k ∈ keys D → (((k, v) ∈ merge E D) ↔ (k, v) ∈ D)) ∧
    ((∀ x ∈ keys E, ∀ y ∈ keys D, x ≤ y) →
      (keys (merge E D)).Pairwise (· < ·)) := by
  refine ⟨?_, ?_, ?_, ?_⟩
  · intro k
    rw [← hasKey_eq_true_iff, ← hasKey_eq_true_iff, ← hasKey_eq_true_iff]
    unfold merge
    rw [hasKey_dedupLast, hasKey_append]
    cases hasKey k E <;> cases hasKey k D <;> simp
  · exact keys_nodup_dedupLast (E ++ D)
  · intro k v hk
    constructor
    · intro hm
      unfold merge at hm
      rw [dedupLast_append] at hm
      rcases List.mem_append.mp hm with h | h
      · exfalso
        have hf := (List.mem_filter.mp h).2
        have hkD : hasKey (k, v).1 D = true := hasKey_eq_true_iff.mpr hk
        simp [hkD] at hf
      · exact mem_of_mem_dedupLast h
    · intro hmem
      unfold merge
      rw [dedupLast_append]
      refine List.mem_append.mpr (Or.inr ?_)
      rw [dedupLast_eq_self (nodup_keys_of_sorted hD)]
      exact hmem
  · intro hle
    unfold merge
    rw [dedupLast_append, dedupLast_eq_self (nodup_keys_of_sorted hE),
        dedupLast_eq_self (nodup_keys_of_sorted hD)]
    simp only [keys, List.map_append]
    refine List.pairwise_append.mpr ⟨?_, ?_, ?_⟩
    · exact List.Pairwise.sublist
        (List.Sublist.map Prod.fst (List.filter_sublist E)) hE
    · exact hD
    · intro x hx y hy
      rcases List.mem_map.mp hx with ⟨p, hp, rfl⟩
      have hpE : p ∈ E := List.mem_of_mem_filter hp
      have hpf := List.of_mem_filter hp
      have hxE : p.1 ∈ keys E := by
        simpa [keys] using List.mem_map_of_mem Prod.fst hpE
      have hxnD : ¬ p.1 ∈ keys D := by
        intro hmem
        have hkk := hasKey_eq_true_iff.mpr hmem
        simp [hkk] at hpf
      have hyD : y ∈ keys D := by simpa [keys] using hy
      have hxy := hle p.1 hxE y hyD
      exact lt_of_le_of_ne hxy (fun he => hxnD (he ▸ hyD))

/-- Claim C3, witness: the amended merge-shape theorem instantiated at the
concrete sorted tables exE3 and exD3. -/
theorem C3_merge_shape_witness :
    (keys exE3).Pairwise (· < ·) ∧ (keys exD3).Pairwise (· < ·) ∧
    ((∀ k, k ∈ keys (merge exE3 exD3) ↔ (k ∈ keys exE3 ∨ k ∈ keys exD3)) ∧
     (keys (merge exE3 exD3)).Nodup ∧
     (∀ k v, k ∈ keys exD3 → (((k, v) ∈ merge exE3 exD3) ↔ (k, v) ∈ exD3)) ∧
     ((∀ x ∈ keys exE3, ∀ y ∈ keys exD3, x ≤ y) →
       (keys (merge exE3 exD3)).Pairwise (· < ·))) :=
  ⟨by decide, by decide, C3_merge_shape exE3 exD3 (by decide) (by decide)⟩

/- ------------------------------------------------------------------ -/
/- Lemmas about tables and the read path.                              -/
/- ------------------------------------------------------------------ -/

theorem mockTable_mem_18666 : ((18666 : Int), (0 : Int)) ∈ mockTable := by
  unfold mockTable
  rw [List.mem_map]
  refine ⟨18666, ?_, rfl⟩
  unfold mockDates
  rw [List.mem_filter]
  refine ⟨?_, by decide⟩
  rw [List.mem_map]
  refine ⟨1, ?_, ?_⟩
  · rw [List.mem_range]
    norm_num
  · decide

theorem mockTable_mem_20490 : ((20490 : Int), (0 : Int)) ∈ mockTable := by
  unfold mockTable
  rw [List.mem_map]
  refine ⟨20490, ?_, rfl⟩
  unfold mockDates
  rw [List.mem_filter]
  refine ⟨?_, by decide⟩
  rw [List.mem_map]
  refine ⟨1825, ?_, ?_⟩
  · rw [List.mem_range]
    norm_num
  · decide

theorem get_index_data_mock_miss (period : String)
    (hlong : period ∈ longPeriods) :
    get_index_data (fun _ => none) "^GSPC" period = mockTable := by
  unfold get_index_data
  rw [if_pos hlong]

theorem le_maxKey {t : Table} {x : Int × Int} (h : x ∈ t) :
    x.1 ≤ maxKey t := by
  induction t with
  | nil => simp at h
  | cons a l ih =>
    cases l with
    | nil =>
      have hx : x = a := by simpa using h
      rw [hx]
      simp [maxKey]
    | cons b m =>
      have he : maxKey (a :: b :: m) = max a.1 (maxKey (b :: m)) := rfl
      rcases List.mem_cons.mp h with h1 | h1
      · rw [h1, he]
        exact le_max_left _ _
      · rw [he]
        exact le_trans (ih h1) (le_max_right _ _)

/- ------------------------------------------------------------------ -/
/- Claim theorems for the ingestor and the read path.                  -/
/- ------------------------------------------------------------------ -/

/-- Claim C1, counterexample: with a cache holding data for fred/DFF through
day 18262, a rate-limited fetch writes a ledger record whose
last_date_ingested field is None, not the last successfully ingested date
18262, because no caller of _record_rate_limit passes a cursor. -/
theorem C1_counterexample :
    (processSeries exClientRL true 0 "DFF" exStateDFF).1.ledger
        ("fred", "DFF") =
      some ⟨"fred", "DFF", "Error 429", none, 0, "rate_limited"⟩ ∧
    maxKey [((18262 : Int), (5 : Int))] = 18262 ∧
    decide ((none : Option Int) = some (18262 : Int)) = false := by
  refine ⟨by decide, by decide, by decide⟩

/-- Claim C1, amended: on a rate-limited fetch the ledger record written for
the key carries last_date_ingested = None (the cursor argument is never
supplied by any caller); a subsequent incremental run nevertheless resumes
from the last successfully ingested date because ingest_fred derives the
fetch start from the maximum index of the cached table rather than from the
ledger. -/
theorem C1_rate_limit_cursor (client : String → Int → FetchResult)
    (incremental : Bool) (now : Int) (sid msg : String) (st : IngestState)
    (e : Table)
    (hfetch : client sid (startDate incremental st.cache sid) =
      FetchResult.fetchErr msg)
    (hrl : is_rate_limit_error msg = true)
    (hc : loadExistingParquet st.cache "fred" sid = some e)
    (hne : 0 < e.length) :
    (processSeries client incremental now sid st).1.ledger ("fred", sid) =
      some ⟨"fred", sid, msg, none, now, "rate_limited"⟩ ∧
    startDate true st.cache sid = maxKey e := by
  constructor
  · simp only [processSeries, hfetch, hrl, if_true]
    simp [recordRateLimit]
  · simp [startDate, hc, hne]

/-- Claim C1, witness: the amended rate-limit theorem at a concrete client
that raises a 429 error over a cache holding one row for fred/DFF. -/
theorem C1_rate_limit_cursor_witness :
    exClientRL "DFF" (startDate true exStateDFF.cache "DFF") =
        FetchResult.fetchErr "Error 429" ∧
    is_rate_limit_error "Error 429" = true ∧
    loadExistingParquet exStateDFF.cache "fred" "DFF" =
        some [((18262 : Int), (5 : Int))] ∧
    0 < ([((18262 : Int), (5 : Int))] : Table).length ∧
    ((processSeries exClientRL true 0 "DFF" exStateDFF).1.ledger
        ("fred", "DFF") =
      some ⟨"fred", "DFF", "Error 429", none, 0, "rate_limited"⟩ ∧
     startDate true exStateDFF.cache "DFF" =
       maxKey [((18262 : Int), (5 : Int))]) :=
  ⟨rfl, by decide, by decide, by decide,
   C1_rate_limit_cursor exClientRL true 0 "DFF" "Error 429" exStateDFF
     [(18262, 5)] rfl (by decide) (by decide) (by decide)⟩

/-- Claim C5, counterexample: a key whose ledger holds a rate-limit record
from an earlier run is ingested successfully, yet the ledger still contains
the record afterwards: no code path removes a ledger entry on success. -/
theorem C5_counterexample :
    (processSeries exClientOk false 0 "DFF" exStateLedger).2 =
        StepOutcome.ok ∧
    (processSeries exClientOk false 0 "DFF" exStateLedger).1.ledger
        ("fred", "DFF") =
      some ⟨"fred", "DFF", "earlier 429", none, -5, "rate_limited"⟩ := by
  refine ⟨by decide, by decide⟩

/-- Claim C5, amended: the rate-limit ledger entry for a key is never
cleared when the key next succeeds: a successful ingestion step leaves the
whole ledger unchanged, so a previously recorded entry persists until the
data directory is deleted wholesale. -/
theorem C5_ledger_not_cleared (client : String → Int → FetchResult)
    (incremental : Bool) (now : Int) (sid : String) (st : IngestState)
    (t : Table)
    (hfetch : client sid (startDate incremental st.cache sid) =
      FetchResult.data t)
    (hne : 0 < t.length) :
    (processSeries client incremental now sid st).1.ledger = st.ledger ∧
    (processSeries client incremental now sid st).2 = StepOutcome.ok := by
  have hz : ¬ t.length = 0 := by omega
  simp only [processSeries, hfetch]
  rw [if_neg hz]
  exact ⟨rfl, rfl⟩

/-- Claim C5, witness: the amended ledger-persistence theorem at a concrete
successful fetch over a state whose ledger holds a record for fred/DFF. -/
theorem C5_ledger_not_cleared_witness :
    exClientOk "DFF" (startDate false exStateLedger.cache "DFF") =
        FetchResult.data [((18300 : Int), (7 : Int))] ∧
    0 < ([((18300 : Int), (7 : Int))] : Table).length ∧
    ((processSeries exClientOk false 0 "DFF" exStateLedger).1.ledger =
        exStateLedger.ledger ∧
     (processSeries exClientOk false 0 "DFF" exStateLedger).2 =
        StepOutcome.ok) :=
  ⟨rfl, by decide,
   C5_ledger_not_cleared exClientOk false 0 "DFF" exStateLedger
     [(18300, 7)] rfl (by decide)⟩

/-- Claim C6, counterexample: ingesting with no credentials configured
writes nothing at all: after an ingest run with no API key over a fresh
empty state, the manifest has no entry (so no status=ok and no
synthetic-source tag) and the cache holds no table for market/^GSPC. -/
theorem C6_counterexample :
    ingestFred none false 0 emptyState = emptyState ∧
    (ingestFred none false 0 emptyState).manifest ("market", "^GSPC") =
        none ∧
    (ingestFred none false 0 emptyState).cache
        ("market", sanitizeStr "^GSPC") = none := by
  refine ⟨rfl, rfl, rfl⟩

/-- Claim C6, amended: with no credentials the ingestor skips the source and
leaves the entire state untouched (no synthetic write, no manifest entry, no
tag); synthetic data exists only on the Read Path, which serves an in-memory
mock table for market/^GSPC on a cache miss, so reads still return data. -/
theorem C6_no_credentials_skips (incremental : Bool) (now : Int)
    (st : IngestState) :
    ingestFred none incremental now st = st ∧
    0 < (get_index_data (fun _ => none) "^GSPC" "5y").length := by
  refine ⟨rfl, ?_⟩
  rw [get_index_data_mock_miss "5y" (by decide)]
  exact List.length_pos_of_mem mockTable_mem_18666

/-- Claim C7, counterexample: on a cache miss with requested period 1y, the
read path returns the synthetic five-year table unfiltered: it contains day
18666, which lies before the window cutoff (maximum index minus 365 days). -/
theorem C7_counterexample :
    ((18666 : Int), (0 : Int)) ∈
        get_index_data (fun _ => none) "^GSPC" "1y" ∧
    (18666 : Int) <
      maxKey (get_index_data (fun _ => none) "^GSPC" "1y") - 365 := by
  rw [get_index_data_mock_miss "1y" (by decide)]
  refine ⟨mockTable_mem_18666, ?_⟩
  have h1 := le_maxKey mockTable_mem_20490
  simp only at h1
  omega

/-- Claim C7, amended: when the requested period is a long period with a
known day count and the cache holds a table for the ticker, every index
value returned by get_index_data lies within the requested window, between
the cached maximum minus the period length and the cached maximum; on a
cache miss, however, the synthetic fallback is returned without any window
filtering. -/
theorem C7_window_filter (cache : String × String → Option Table)
    (ticker period : String) (t : Table) (d : Nat)
    (hc : cache ("market", sanitizeStr ticker) = some t)
    (hlong : period ∈ longPeriods)
    (hd : periodDays period = some d) :
    ∀ x ∈ get_index_data cache ticker period,
      maxKey t - (d : Int) ≤ x.1 ∧ x.1 ≤ maxKey t := by
  intro x hx
  have hge : get_index_data cache ticker period = filter_by_period t period := by
    unfold get_index_data
    rw [if_pos hlong, hc]
  have hfe : filter_by_period t period =
      if 0 < t.length then
        t.filter (fun x => decide (maxKey t - (d : Int) ≤ x.1))
      else t := by
    unfold filter_by_period
    rw [hd]
  rw [hge, hfe] at hx
  by_cases hlen : 0 < t.length
  · rw [if_pos hlen] at hx
    have h1 := List.of_mem_filter hx
    have h2 := List.mem_of_mem_filter hx
    constructor
    · simpa using h1
    · exact le_maxKey h2
  · rw [if_neg hlen] at hx
    cases t with
    | nil => simp at hx
    | cons a l => exact absurd (by simp) hlen

/-- Claim C7, witness: the window-filter theorem at a concrete cached table
for market/^GSPC with indices 100 and 500 and requested period 1y. -/
theorem C7_window_filter_witness :
    exCache7 ("market", sanitizeStr "^GSPC") =
        some [((100 : Int), (1 : Int)), (500, 2)] ∧
    "1y" ∈ longPeriods ∧
    periodDays "1y" = some 365 ∧
    (∀ x ∈ get_index_data exCache7 "^GSPC" "1y",
      maxKey [((100 : Int), (1 : Int)), (500, 2)] - ((365 : Nat) : Int) ≤
          x.1 ∧
      x.1 ≤ maxKey [((100 : Int), (1 : Int)), (500, 2)]) :=
  ⟨by decide, by decide, by decide,
   C7_window_filter exCache7 "^GSPC" "1y" [(100, 1), (500, 2)] 365
     (by decide) (by decide) (by decide)⟩

/-- Claim C8: when the upstream fetch returns no rows, the cache is left
completely unchanged: the empty branch records a manifest error and
continues without writing any Parquet file, so previously cached data for
the key remains intact. -/
theorem C8_empty_leaves_cache (client : String → Int → FetchResult)
    (incremental : Bool) (now : Int) (sid : String) (st : IngestState)
    (hfetch : client sid (startDate incremental st.cache sid) =
      FetchResult.data []) :
    (processSeries client incremental now sid st).1.cache = st.cache ∧
    (processSeries client incremental now sid st).2 = StepOutcome.fail := by
  simp only [processSeries, hfetch]
  exact ⟨rfl, rfl⟩

/-- Claim C8, witness: the empty-branch theorem at a concrete client that
returns an empty series over the empty state. -/
theorem C8_empty_leaves_cache_witness :
    exClientEmpty "DFF" (startDate false emptyState.cache "DFF") =
        FetchResult.data [] ∧
    ((processSeries exClientEmpty false 0 "DFF" emptyState).1.cache =
        emptyState.cache ∧
     (processSeries exClientEmpty false 0 "DFF" emptyState).2 =
        StepOutcome.fail) :=
  ⟨rfl, C8_empty_leaves_cache exClientEmpty false 0 "DFF" emptyState rfl⟩

/-- Claim C9, counterexample: the message "limit exceeded" matches none of
the throttling signals listed by the claim (HTTP 429, rate limit, quota
exceeded, too many requests, throttle), yet the code classifies it as
rate-limited and stops the source, because the signal list in the code also
contains "limit exceeded"; so classification is not an iff against the
claimed signal set. -/
theorem C9_counterexample :
    is_rate_limit_error "limit exceeded" = true ∧
    specSignals.all
      (fun s => !(containsSeq s.toList (lowerL "limit exceeded".toList))) =
        true ∧
    (processSeries (fun _ _ => FetchResult.fetchErr "limit exceeded")
      false 0 "DFF" emptyState).2 = StepOutcome.rateLimited := by
  refine ⟨by decide, by decide, by decide⟩

/-- Claim C9, amended: an error is classified rate-limited exactly when its
lowercased text contains one of the six code signals 429, rate limit, too
many requests, throttl (a prefix matching throttle and throttling), quota
exceeded, or limit exceeded; any message not matching is a hard error: the
step records it and continues to the next key without touching the ledger. -/
theorem C9_classification (msg : String) :
    (is_rate_limit_error msg = true ↔
      (containsSeq "429".toList (lowerL msg.toList) = true ∨
       containsSeq "rate limit".toList (lowerL msg.toList) = true ∨
       containsSeq "too many requests".toList (lowerL msg.toList) = true ∨
       containsSeq "throttl".toList (lowerL msg.toList) = true ∨
       containsSeq "quota exceeded".toList (lowerL msg.toList) = true ∨
       containsSeq "limit exceeded".toList (lowerL msg.toList) = true)) ∧
    (is_rate_limit_error msg = false →
      ∀ (client : String → Int → FetchResult) (incremental : Bool)
        (now : Int) (sid : String) (st : IngestState),
        client sid (startDate incremental st.cache sid) =
            FetchResult.fetchErr msg →
          ((processSeries client incremental now sid st).2 =
              StepOutcome.fail ∧
           (processSeries client incremental now sid st).1.ledger =
              st.ledger)) := by
  constructor
  · simp [is_rate_limit_error, rateLimitSignals, List.any_cons, List.any_nil,
      Bool.or_eq_true]
  · intro hf client incremental now sid st hfetch
    simp only [processSeries, hfetch]
    rw [if_neg (by rw [hf]; exact Bool.false_ne_true)]
    exact ⟨rfl, rfl⟩

/-- Claim C9, witness: the classification theorem applied to the hard error
message used by exClientHard, which is not rate-limited, so the step fails
and the ledger is untouched. -/
theorem C9_classification_witness :
    is_rate_limit_error "connection reset by peer" = false ∧
    ((processSeries exClientHard false 0 "DFF" emptyState).2 =
        StepOutcome.fail ∧
     (processSeries exClientHard false 0 "DFF" emptyState).1.ledger =
        emptyState.ledger) :=
  ⟨by decide,
   (C9_classification "connection reset by peer").2 (by decide) exClientHard
     false 0 "DFF" emptyState rfl⟩
